import Mathlib

/-!
Verification of the `clplot` canvas and shape renderer.

Shallow embedding of the `clplot` Rust sources (`src/data.rs`,
`src/renderer/plot.rs`, `src/renderer/shapes.rs`) and proofs about it.

Modelling conventions:
* Rust `u16` values are modelled as `Nat`; where the source can overflow or
  underflow, arithmetic is done with an explicit `% 2^16` (release-mode
  wrapping semantics).  Casts `u16 → i16`, `f32 → i16` (saturating) and
  `i16 → usize` (sign extension) are modelled by explicit functions below.
* Rust `f32` values are modelled by exact rationals `ℚ`.  All concrete
  inputs used in theorems are exactly representable, and every sign /
  comparison fact used is robust to `f32` rounding.
* Rust strings are modelled as `List Char`; lengths and indices count
  characters (the sources are only ever exercised on one-byte characters
  in the claims considered here).
* The terminal surface is modelled as an unbounded character grid together
  with a cursor and one saved (anchor) position; the crossterm commands the
  code queues are reified as a `Cmd` list and given an operational
  semantics `execList`.
-/

/-- Two-to-the-sixteen, the `u16` modulus. -/
def U16MOD : Nat := 65536

/-- Two-to-the-sixty-four, the `usize` modulus. -/
def USIZEMOD : Nat := 18446744073709551616

/-- Wrap an integer into the `i16` range `[-32768, 32767]`
(two's-complement wrapping, the release-mode semantics of Rust `as i16`
casts and of overflowing `i16` arithmetic). -/
def wrap16 (z : Int) : Int := (z + 32768) % 65536 - 32768

/-- The `u16 → i16` cast (`x as i16`): two's-complement reinterpretation. -/
def toI16 (n : Nat) : Int := wrap16 n

/-- The `i16 → usize` cast (`x as usize`): sign extension to 64 bits. -/
def usizeOf (z : Int) : Nat := (z % (USIZEMOD : Int)).toNat

/-- The saturating `f32 → i16` cast used by `as i16` on floats. -/
def i16sat (z : Int) : Int := max (-32768) (min 32767 z)

/-- Wrapping `u16` addition (`a + b` on `u16`, release mode). -/
def u16add (a b : Nat) : Nat := (a + b) % U16MOD

/-- Wrapping `u16` subtraction (`a - b` on `u16`, release mode). -/
def u16sub (a b : Nat) : Nat := (a % U16MOD + U16MOD - b % U16MOD) % U16MOD

/-- Source `src/data.rs`: `PVec2`, a pair of `u16` grid coordinates. -/
structure PVec2 where
  x : Nat
  y : Nat
deriving DecidableEq, Repr

namespace PVec2

/-- Source `PVec2::new`. -/
def new (x y : Nat) : PVec2 := ⟨x, y⟩

/-- Source `PVec2::to` (named `vto` here because `to` is a reserved token):
component-wise difference `other - self` on `u16` (wrapping on underflow). -/
def vto (self other : PVec2) : PVec2 :=
  ⟨u16sub other.x self.x, u16sub other.y self.y⟩

/-- Source `impl Add for PVec2`: component-wise `u16` addition. -/
def add (self rhs : PVec2) : PVec2 :=
  ⟨u16add self.x rhs.x, u16add self.y rhs.y⟩

end PVec2

lemma u16sub_of_le {a b : Nat} (hba : b ≤ a) (ha : a < U16MOD) :
    u16sub a b = a - b := by
  unfold u16sub U16MOD at *
  have hb : b < 65536 := lt_of_le_of_lt hba ha
  rw [Nat.mod_eq_of_lt ha, Nat.mod_eq_of_lt hb]
  omega

lemma u16add_eq (a b : Nat) (h : a + b < U16MOD) : u16add a b = a + b := by
  unfold u16add
  exact Nat.mod_eq_of_lt h

/-- C7: For grid points `a ≤ b` componentwise (with `b` in `u16`
range), `a + a.to(b) = b`. -/
theorem pvec2_add_to (a b : PVec2) (hx : a.x ≤ b.x) (hy : a.y ≤ b.y)
    (hbx : b.x < U16MOD) (hby : b.y < U16MOD) :
    a.add (a.vto b) = b := by
  obtain ⟨bx, byy⟩ := b
  simp only at hx hy hbx hby
  have h1 : u16sub bx a.x = bx - a.x := u16sub_of_le hx hbx
  have h2 : u16sub byy a.y = byy - a.y := u16sub_of_le hy hby
  unfold U16MOD at hbx hby
  unfold PVec2.add PVec2.vto
  simp only [h1, h2]
  have ex : a.x + (bx - a.x) = bx := by omega
  have ey : a.y + (byy - a.y) = byy := by omega
  rw [u16add_eq _ _ (by unfold U16MOD; omega), u16add_eq _ _ (by unfold U16MOD; omega)]
  rw [ex, ey]

/-- Witness for C7 at `a = (1,3)`, `b = (2,4)`. -/
theorem pvec2_add_to_witness :
    (PVec2.new 1 3).add ((PVec2.new 1 3).vto (PVec2.new 2 4)) = PVec2.new 2 4 :=
  pvec2_add_to (PVec2.new 1 3) (PVec2.new 2 4)
    (by decide) (by decide) (by decide) (by decide)

/-- The crossterm commands the renderer queues on stdout
(`RestorePosition`, `SavePosition`, `MoveUp`, `MoveDown`, `MoveRight`,
`Print`). -/
inductive Cmd where
  | restore
  | save
  | moveUp (n : Nat)
  | moveDown (n : Nat)
  | moveRight (n : Nat)
  | print (s : List Char)
deriving DecidableEq, Repr

/-- Rust `char::is_whitespace`: membership in the Unicode `White_Space`
set. -/
def isWs (c : Char) : Bool :=
  [0x09, 0x0A, 0x0B, 0x0C, 0x0D, 0x20, 0x85, 0xA0, 0x1680,
   0x2000, 0x2001, 0x2002, 0x2003, 0x2004, 0x2005, 0x2006, 0x2007,
   0x2008, 0x2009, 0x200A, 0x2028, 0x2029, 0x202F, 0x205F,
   0x3000].contains c.toNat

/-- Source `str::find(pred)`: index of the first character satisfying `pred`. -/
def findIdxP (p : Char → Bool) : List Char → Option Nat
  | [] => none
  | c :: cs => if p c then some 0 else (findIdxP p cs).map (· + 1)

lemma findIdxP_drop {p : Char → Bool} :
    ∀ (l : List Char) (i : Nat), findIdxP p l = some i →
      ∃ c cs, l.drop i = c :: cs ∧ p c = true := by
  intro l
  induction l with
  | nil => intro i h; simp [findIdxP] at h
  | cons c cs ih =>
    intro i h
    unfold findIdxP at h
    by_cases hp : p c
    · simp [hp] at h
      subst h
      exact ⟨c, cs, rfl, hp⟩
    · simp [hp] at h
      obtain ⟨j, hj, rfl⟩ := h
      obtain ⟨c', cs', hd, hc⟩ := ih j hj
      exact ⟨c', cs', by simpa using hd, hc⟩

lemma findIdxP_none {p : Char → Bool} :
    ∀ (l : List Char), findIdxP p l = none → ∀ c ∈ l, p c = false := by
  intro l
  induction l with
  | nil => intro _ c hc; simp at hc
  | cons c cs ih =>
    intro h c' hc'
    unfold findIdxP at h
    by_cases hp : p c
    · simp [hp] at h
    · simp [hp] at h
      rcases List.mem_cons.mp hc' with rfl | hmem
      · simpa using hp
      · exact ih h c' hmem

/-- Source `String::split("\n")`: split into the list of lines (separators
removed; a trailing separator yields a trailing empty line). -/
def splitNl : List Char → List (List Char)
  | [] => [[]]
  | c :: cs =>
    if c = '\n' then [] :: splitNl cs
    else
      match splitNl cs with
      | [] => [[c]]
      | hd :: tl => (c :: hd) :: tl

namespace Plot
end Plot

/-- Source `src/renderer/plot.rs`: the `Plot` struct (all fields `u16`). -/
structure Plot where
  width : Nat
  height : Nat
  x_min : Nat
  x_max : Nat
  y_min : Nat
  y_max : Nat
deriving DecidableEq, Repr

namespace Plot

/-- Source `Plot::clip`: cut off the end of a string that exceeds `max_len`
(the length comparison goes through a `len() as u16` cast). -/
def clip (input : List Char) (max_len : Nat) : List Char :=
  if input.length % U16MOD ≤ max_len then input else input.take max_len

/-- Source `Plot::clamp`. -/
def clamp (n lower upper : Nat) : Nat := max lower (min n upper)

/-- Source `Plot::clamp_point`. -/
def clamp_point (point : PVec2) (x_min x_max y_min y_max : Nat) : PVec2 :=
  ⟨clamp point.x x_min x_max, clamp point.y y_min y_max⟩

/-- Source `Plot::clamp_to_plot`. -/
def clamp_to_plot (p : Plot) (point : PVec2) : PVec2 :=
  clamp_point point p.x_min p.x_max p.y_min p.y_max

/-- Source `Plot::consume_line`, the recursive helper of
`put_str_transparent`: print up to the first whitespace run, skip the
whitespace by a cursor move, recurse on the rest. -/
def consume_line (line : List Char) : List Cmd :=
  if _h0 : line.length = 0 then []
  else
    match _h1 : findIdxP isWs line with
    | none => [Cmd.print line]
    | some i =>
      match _h2 : findIdxP (fun c => !(isWs c)) (line.drop i) with
      | none => [Cmd.print (line.take i)]
      | some j =>
        Cmd.print (line.take i) :: Cmd.moveRight (j % U16MOD) ::
          consume_line ((line.drop i).drop j)
termination_by line.length
decreasing_by
  simp only [List.length_drop]
  obtain ⟨c, cs, hd, hc⟩ := findIdxP_drop _ _ _h1
  rw [hd] at _h2
  unfold findIdxP at _h2
  rw [hc] at _h2
  simp at _h2
  obtain ⟨j', _hj', rfl⟩ := _h2
  have hlen : line.length - i = cs.length + 1 := by
    have := congrArg List.length hd
    simpa using this
  omega

/-- Source `Plot::put_str`: the command sequence queued (clamp the start point,
move the cursor there, then per line print the clipped line, a newline,
and a cursor re-alignment move). -/
def put_str (p : Plot) (content : List Char) (start : PVec2) : List Cmd :=
  let actual := p.clamp_to_plot start
  [Cmd.restore, Cmd.moveUp (u16sub p.height actual.y),
   Cmd.moveRight actual.x] ++
    (splitNl content).flatMap (fun line =>
      [Cmd.print (clip line (u16sub p.width actual.x)), Cmd.print ['\n'],
       Cmd.moveRight actual.x])

/-- Source `Plot::put_str_transparent`: same framing as `put_str` but each line
goes through `consume_line`. -/
def put_str_transparent (p : Plot) (content : List Char) (start : PVec2) :
    List Cmd :=
  let actual := p.clamp_to_plot start
  [Cmd.restore, Cmd.moveUp (u16sub p.height actual.y),
   Cmd.moveRight actual.x] ++
    (splitNl content).flatMap (fun line =>
      consume_line (clip line (u16sub p.width actual.x)) ++
        [Cmd.print ['\n'], Cmd.moveRight actual.x])

/-- Source `Plot::put`: place one character. -/
def put (p : Plot) (character : Char) (point : PVec2) : List Cmd :=
  let actual := p.clamp_to_plot point
  [Cmd.restore, Cmd.moveUp (u16sub p.height actual.y),
   Cmd.moveRight actual.x, Cmd.print [character]]

/-- Source `Plot::new` (the returned struct; its terminal side effect prints
`height` newlines and saves the anchor, see `newCmds`). -/
def new (width height : Nat) : Plot :=
  ⟨width, height, 0, width, 0, height⟩

/-- The commands `Plot::new` queues. -/
def newCmds (height : Nat) : List Cmd :=
  [Cmd.print (List.replicate height '\n'), Cmd.save]

/-- Source `Plot::resize` (the returned struct). -/
def resize (_p : Plot) (width height : Nat) : Plot :=
  ⟨width, height, 0, width, 0, height⟩

/-- The commands `Plot::resize` queues. -/
def resizeCmds (p : Plot) (height : Nat) : List Cmd :=
  [Cmd.restore, Cmd.moveUp p.height,
   Cmd.print (List.replicate height '\n'), Cmd.save]

/-- Source `Plot::clear`. -/
def clear (p : Plot) : List Cmd :=
  [Cmd.restore, Cmd.moveUp p.height,
   Cmd.print ((List.replicate p.height
     (List.replicate p.width ' ' ++ ['\n'])).flatten)]

/-- Source `Plot::finish`. -/
def finish (_p : Plot) : List Cmd :=
  [Cmd.restore, Cmd.moveDown 1]

/-- Source `Plot::origin_bl`. -/
def origin_bl (p : Plot) (x y : Nat) : PVec2 :=
  p.clamp_to_plot ⟨x, u16sub p.height y⟩

/-- Source `Plot::origin_br`. -/
def origin_br (p : Plot) (x y : Nat) : PVec2 :=
  p.clamp_to_plot ⟨u16sub p.width x, u16sub p.height y⟩

end Plot

/-- Rust `f32::round` (round half away from zero), on the exact rational
model. -/
def roundF (q : ℚ) : Int :=
  if q < 0 then -(⌊-q + 1/2⌋) else ⌊q + 1/2⌋

/-- The saturating `f32 → u16` cast (`as u16`): negative values go to 0,
values above 65535 saturate, the fraction is truncated. -/
def u16OfF (z : Int) : Nat := min 65535 z.toNat

/-- Source `Plot::derive_point_dec`: round each float coordinate and clamp the
resulting point into the plot bounds.  NOTE: the source never rescales by
the plot extent. -/
def Plot.derive_point_dec (p : Plot) (x y : ℚ) : PVec2 :=
  p.clamp_to_plot ⟨u16OfF (roundF x), u16OfF (roundF y)⟩

/-- The `Plot` values obtainable through the public constructors
(`new`, and `resize` of a reachable plot). -/
inductive ReachablePlot : Plot → Prop where
  | new (w h : Nat) : ReachablePlot (Plot.new w h)
  | resize (p : Plot) (w h : Nat) :
      ReachablePlot p → ReachablePlot (p.resize w h)

/-- C10: Every reachable `Plot` keeps its clip rectangle equal to the
full extent, and `clamp_to_plot` therefore clamps into
`[0,width] × [0,height]`. -/
theorem reachable_plot_full_bounds (p : Plot) (h : ReachablePlot p) :
    p.x_min = 0 ∧ p.x_max = p.width ∧ p.y_min = 0 ∧ p.y_max = p.height ∧
      ∀ q : PVec2, p.clamp_to_plot q =
        Plot.clamp_point q 0 p.width 0 p.height := by
  induction h with
  | new w h =>
    refine ⟨rfl, rfl, rfl, rfl, fun q => rfl⟩
  | resize p w h _ _ =>
    refine ⟨rfl, rfl, rfl, rfl, fun q => rfl⟩

/-- Witness for C10: the plot freshly created with `new 7 4` has full
bounds. -/
theorem reachable_plot_full_bounds_witness :
    (Plot.new 7 4).x_min = 0 ∧ (Plot.new 7 4).x_max = (Plot.new 7 4).width ∧
      (Plot.new 7 4).y_min = 0 ∧ (Plot.new 7 4).y_max = (Plot.new 7 4).height ∧
      ∀ q : PVec2, (Plot.new 7 4).clamp_to_plot q =
        Plot.clamp_point q 0 (Plot.new 7 4).width 0 (Plot.new 7 4).height :=
  reachable_plot_full_bounds (Plot.new 7 4) (ReachablePlot.new 7 4)

/-- State of the terminal surface: an unbounded character grid (rows grow
downwards, as on a real terminal), a cursor, and the one saved anchor
position.  Printing `'\n'` moves to column 0 of the next row (cooked-mode
`ONLCR` translation); printing any other character writes it at the
cursor and advances the cursor one column. -/
structure TermState where
  grid : Int → Int → Char
  row : Int
  col : Int
  savedRow : Int
  savedCol : Int

/-- Write one character into the grid. -/
def writeCell (g : Int → Int → Char) (r c : Int) (ch : Char) :
    Int → Int → Char :=
  fun r' c' => if r' = r ∧ c' = c then ch else g r' c'

/-- Print a single character. -/
def printChar (s : TermState) (ch : Char) : TermState :=
  if ch = '\n' then { s with row := s.row + 1, col := 0 }
  else { s with grid := writeCell s.grid s.row s.col ch, col := s.col + 1 }

/-- Print a string, character by character. -/
def printStr (s : TermState) (l : List Char) : TermState :=
  l.foldl printChar s

/-- One command step. -/
def execCmd (s : TermState) : Cmd → TermState
  | Cmd.restore => { s with row := s.savedRow, col := s.savedCol }
  | Cmd.save => { s with savedRow := s.row, savedCol := s.col }
  | Cmd.moveUp n => { s with row := s.row - n }
  | Cmd.moveDown n => { s with row := s.row + n }
  | Cmd.moveRight n => { s with col := s.col + n }
  | Cmd.print l => printStr s l

/-- Run a command list. -/
def execList (s : TermState) (cs : List Cmd) : TermState :=
  cs.foldl execCmd s

lemma findIdxP_eq_none {p : Char → Bool} :
    ∀ (l : List Char), (∀ c ∈ l, p c = false) → findIdxP p l = none := by
  intro l
  induction l with
  | nil => intro _; rfl
  | cons c cs ih =>
    intro h
    unfold findIdxP
    rw [h c (List.mem_cons_self c cs)]
    simp only [Bool.false_eq_true, if_false]
    rw [ih (fun c' hc' => h c' (List.mem_cons_of_mem c hc'))]
    rfl

lemma splitNl_no_nl {l : List Char} (h : '\n' ∉ l) : splitNl l = [l] := by
  induction l with
  | nil => rfl
  | cons c cs ih =>
    have h1 : ¬ (c = '\n') := fun hc => h (by simp [hc])
    have h2 : '\n' ∉ cs := fun hc => h (List.mem_cons_of_mem c hc)
    unfold splitNl
    rw [if_neg h1, ih h2]

lemma clip_subset {l : List Char} {m : Nat} : ∀ c ∈ Plot.clip l m, c ∈ l := by
  intro c hc
  unfold Plot.clip at hc
  split at hc
  · exact hc
  · exact List.take_subset _ _ hc

lemma clip_ne_nil {l : List Char} {m : Nat} (hl : l ≠ []) (hm : 1 ≤ m) :
    Plot.clip l m ≠ [] := by
  unfold Plot.clip
  split
  · exact hl
  · intro h
    rcases (List.take_eq_nil_iff).mp h with h' | h'
    · omega
    · exact hl h'

lemma consume_line_no_ws {l : List Char} (hne : l ≠ [])
    (h : ∀ c ∈ l, isWs c = false) :
    Plot.consume_line l = [Cmd.print l] := by
  rw [Plot.consume_line]
  split
  · exact absurd (List.length_eq_zero.mp (by assumption)) hne
  · split
    · rfl
    · exfalso
      rename_i i h1
      rw [findIdxP_eq_none l h] at h1
      exact Option.noConfusion h1

lemma consume_line_all_space {l : List Char} (h : ∀ c ∈ l, c = ' ') :
    Plot.consume_line l = [] ∨ Plot.consume_line l = [Cmd.print []] := by
  rw [Plot.consume_line]
  split
  · exact Or.inl rfl
  · rename_i h0
    cases l with
    | nil => simp at h0
    | cons c cs =>
      have hc : c = ' ' := h c (List.mem_cons_self c cs)
      have hfind : findIdxP isWs (c :: cs) = some 0 := by
        unfold findIdxP
        rw [hc]
        simp [isWs]
      split
      · rename_i h1
        rw [hfind] at h1
        exact Option.noConfusion h1
      · rename_i i h1
        rw [hfind] at h1
        have hi : i = 0 := by
          injection h1 with h1'
          exact h1'.symm
        subst hi
        have hallws : ∀ c' ∈ (c :: cs).drop 0, (fun c'' => !(isWs c'')) c' = false := by
          intro c' hc'
          have : c' = ' ' := h c' (by simpa using hc')
          subst this
          simp [isWs]
        split
        · right
          simp
        · rename_i j h2
          rw [findIdxP_eq_none _ hallws] at h2
          exact Option.noConfusion h2

lemma printStr_grid_nl {l : List Char} (h : ∀ c ∈ l, c = '\n') :
    ∀ s : TermState, (printStr s l).grid = s.grid := by
  induction l with
  | nil => intro s; rfl
  | cons c cs ih =>
    intro s
    have hc : c = '\n' := h c (List.mem_cons_self c cs)
    unfold printStr at *
    simp only [List.foldl_cons]
    rw [ih (fun c' hc' => h c' (List.mem_cons_of_mem c hc'))]
    unfold printChar
    rw [if_pos hc]

lemma execList_grid_of_nl_only :
    ∀ (cs : List Cmd) (s : TermState),
      (∀ l, Cmd.print l ∈ cs → ∀ c ∈ l, c = '\n') →
      (execList s cs).grid = s.grid := by
  intro cs
  induction cs with
  | nil => intro s _; rfl
  | cons c rest ih =>
    intro s h
    unfold execList at *
    simp only [List.foldl_cons]
    rw [ih _ (fun l hl => h l (List.mem_cons_of_mem c hl))]
    cases c with
    | restore => rfl
    | save => rfl
    | moveUp n => rfl
    | moveDown n => rfl
    | moveRight n => rfl
    | print l => exact printStr_grid_nl (h l (List.mem_cons_self _ _)) s

lemma consume_line_nil : Plot.consume_line [] = [] := by
  rw [Plot.consume_line]
  rfl

lemma clip_nil (m : Nat) : Plot.clip [] m = [] := by
  unfold Plot.clip
  split
  · rfl
  · exact List.take_nil

/-- C3, amended: On whitespace-free text that is nonempty and not
clipped away (the clamped start column is below the width),
`put_str_transparent` queues exactly the same command sequence as
`put_str`. -/
theorem put_str_transparent_eq_put_str (p : Plot) (content : List Char)
    (start : PVec2) (hws : ∀ c ∈ content, isWs c = false)
    (hne : content ≠ []) (hx : (p.clamp_to_plot start).x < p.width)
    (hwf : p.width < U16MOD) :
    p.put_str_transparent content start = p.put_str content start := by
  have hnl : '\n' ∉ content := by
    intro hmem
    have h := hws '\n' hmem
    rw [show isWs '\n' = true from by decide] at h
    exact Bool.noConfusion h
  have hm : 1 ≤ u16sub p.width (p.clamp_to_plot start).x := by
    rw [u16sub_of_le (le_of_lt hx) hwf]
    omega
  have hclip_ne :
      Plot.clip content (u16sub p.width (p.clamp_to_plot start).x) ≠ [] :=
    clip_ne_nil hne hm
  have hclip_ws :
      ∀ c ∈ Plot.clip content (u16sub p.width (p.clamp_to_plot start).x),
        isWs c = false :=
    fun c hc => hws c (clip_subset c hc)
  simp only [Plot.put_str_transparent, Plot.put_str]
  rw [splitNl_no_nl hnl]
  simp only [List.flatMap_cons, List.flatMap_nil, List.append_nil]
  rw [consume_line_no_ws hclip_ne hclip_ws]
  rfl

/-- Witness for C3 at plot `new 5 5`, text `"ab"`, start `(1,2)`. -/
theorem put_str_transparent_eq_put_str_witness :
    (Plot.new 5 5).put_str_transparent ['a', 'b'] (PVec2.new 1 2) =
      (Plot.new 5 5).put_str ['a', 'b'] (PVec2.new 1 2) :=
  put_str_transparent_eq_put_str (Plot.new 5 5) ['a', 'b'] (PVec2.new 1 2)
    (by decide) (by decide) (by decide) (by decide)

/-- Counterexample to C3 as stated: on the empty text (which contains no
whitespace characters), `put_str` queues an extra `Print ""` command that
`put_str_transparent` does not, so the command sequences differ. -/
theorem put_str_transparent_ne_put_str_empty :
    (Plot.new 5 5).put_str_transparent [] (PVec2.new 0 0) ≠
      (Plot.new 5 5).put_str [] (PVec2.new 0 0) := by
  intro h
  simp only [Plot.put_str_transparent, Plot.put_str,
    show splitNl ([] : List Char) = [[]] from rfl,
    clip_nil, consume_line_nil, List.flatMap_cons, List.flatMap_nil] at h
  simp at h

/-- C4: `put_str_transparent` on input consisting solely of spaces
never writes a printable character: the grid is left unchanged, whatever
was on it. -/
theorem put_str_transparent_spaces_grid (p : Plot) (content : List Char)
    (start : PVec2) (s : TermState) (hsp : ∀ c ∈ content, c = ' ') :
    (execList s (p.put_str_transparent content start)).grid = s.grid := by
  have hnl : '\n' ∉ content := by
    intro hmem
    exact absurd (hsp '\n' hmem) (by decide)
  simp only [Plot.put_str_transparent]
  rw [splitNl_no_nl hnl]
  simp only [List.flatMap_cons, List.flatMap_nil, List.append_nil]
  apply execList_grid_of_nl_only
  intro l hl c hc
  have hclip_sp :
      ∀ c' ∈ Plot.clip content (u16sub p.width (p.clamp_to_plot start).x),
        c' = ' ' :=
    fun c' hc' => hsp c' (clip_subset c' hc')
  rcases consume_line_all_space hclip_sp with hcl | hcl
  · rw [hcl] at hl
    simp at hl
    subst hl
    simpa using hc
  · rw [hcl] at hl
    simp at hl
    rcases hl with rfl | rfl
    · simp at hc
    · simpa using hc

/-- A concrete terminal state whose grid is pre-filled with the marker
character `'#'`. -/
def markerState : TermState :=
  { grid := fun _ _ => '#', row := 0, col := 0, savedRow := 5, savedCol := 0 }

/-- Witness for C4: two spaces at `(1,1)` on a marker-filled canvas. -/
theorem put_str_transparent_spaces_grid_witness :
    (execList markerState
      ((Plot.new 5 5).put_str_transparent [' ', ' '] (PVec2.new 1 1))).grid =
      markerState.grid :=
  put_str_transparent_spaces_grid (Plot.new 5 5) [' ', ' '] (PVec2.new 1 1)
    markerState (by decide)

/-- The truncating, saturating `f32 → u16` cast (`q as u16` on a float):
negative values go to 0, the fraction is dropped, large values saturate. -/
def u16OfQ (q : ℚ) : Nat := if q < 0 then 0 else min 65535 (⌊q⌋).toNat

/-- C5, code-bug evidence: `derive_point_dec` does not rescale by the
plot extent: on the 10×5 plot, `(1.0, 1.0)` lands on cell `(1,1)`, not on
the far corner `(width, height) = (10, 5)` promised by the claim and by
the function's own doc comment. -/
theorem derive_point_dec_no_rescale :
    (Plot.new 10 5).derive_point_dec 1 1 = PVec2.new 1 1 ∧
      PVec2.new 1 1 ≠ PVec2.new (Plot.new 10 5).width (Plot.new 10 5).height := by
  constructor
  · have hr : roundF 1 = 1 := by
      unfold roundF
      rw [if_neg (by norm_num)]
      have : (1 : ℚ) + 1/2 = 3/2 := by norm_num
      rw [this]
      norm_num [Int.floor_eq_iff]
    unfold Plot.derive_point_dec
    rw [hr]
    decide
  · decide

/-- Source `src/data.rs`: `Vec2`, a pair of `f32` coordinates (modelled exactly
over `ℚ`). -/
structure Vec2 where
  x : ℚ
  y : ℚ

/-- Source `src/renderer/shapes.rs`: `ScaledViewBox`. -/
structure ScaledViewBox where
  plot : Plot
  position : PVec2
  size : PVec2
  x_min : ℚ
  x_max : ℚ
  y_min : ℚ
  y_max : ℚ

namespace ScaledViewBox

/-- Source `ScaledViewBox::clamp`. -/
def clamp (n lower upper : ℚ) : ℚ := max lower (min n upper)

/-- Source `ScaledViewBox::clamp_point`. -/
def clamp_point (point : Vec2) (x_min x_max y_min y_max : ℚ) : Vec2 :=
  ⟨clamp point.x x_min x_max, clamp point.y y_min y_max⟩

/-- Source `ScaledViewBox::clamp_to_plot`. -/
def clamp_to_plot (v : ScaledViewBox) (point : Vec2) : Vec2 :=
  clamp_point point v.x_min v.x_max v.y_min v.y_max

/-- Source `ScaledViewBox::scale_to_dec`, with the literal source formula
`(point − min) / max − min` (the division binds before the second
subtraction). -/
def scale_to_dec (v : ScaledViewBox) (point : Vec2) : Vec2 :=
  ⟨(point.x - v.x_min) / v.x_max - v.x_min,
   (point.y - v.y_min) / v.y_max - v.y_min⟩

/-- Source `ScaledViewBox::dec_to_pp`: scale by the viewbox size, cast to `u16`
(truncating/saturating) and offset by the position (wrapping `u16` add). -/
def dec_to_pp (v : ScaledViewBox) (point : Vec2) : PVec2 :=
  ⟨u16add (u16OfQ (point.x * (v.size.x : ℚ))) v.position.x,
   u16add (u16OfQ (point.y * (v.size.y : ℚ))) v.position.y⟩

/-- Source `ScaledViewBox::translate_to_plot`. -/
def translate_to_plot (v : ScaledViewBox) (point : Vec2) : PVec2 :=
  v.dec_to_pp (v.scale_to_dec (v.clamp_to_plot point))

end ScaledViewBox

/-- A concrete scaled viewbox: origin `(2,3)`, size `(10,10)`, domain
`[1,3] × [1,3]`. -/
def svbEx : ScaledViewBox :=
  ⟨Plot.new 20 20, PVec2.new 2 3, PVec2.new 10 10, 1, 3, 1, 3⟩

/-- C1, code-bug evidence: With domain `[1,3]²`, the exact domain
maximum `(3,3)` is sent to the viewbox origin `(2,3)` (the mis-parenthesised
normalization yields `-1/3`, which the `u16` cast collapses to 0) instead
of `origin + size = (12,13)` required by the claim. -/
theorem svb_translate_precedence_bug :
    svbEx.translate_to_plot ⟨3, 3⟩ = PVec2.new 2 3 ∧
      PVec2.new 2 3 ≠ svbEx.position.add svbEx.size := by
  constructor
  · have hc : svbEx.clamp_to_plot ⟨3, 3⟩ = ⟨3, 3⟩ := by
      unfold ScaledViewBox.clamp_to_plot ScaledViewBox.clamp_point
        ScaledViewBox.clamp svbEx
      norm_num
    unfold ScaledViewBox.translate_to_plot
    rw [hc]
    have hs : svbEx.scale_to_dec ⟨3, 3⟩ = ⟨-1/3, -1/3⟩ := by
      unfold ScaledViewBox.scale_to_dec svbEx
      norm_num
    rw [hs]
    unfold ScaledViewBox.dec_to_pp u16OfQ svbEx
    norm_num
    decide
  · decide

/-- Rounding of a rational to the nearest integer, ties to even — the
IEEE-754 default rounding at integer granularity. -/
def roundEven (x : ℚ) : Int :=
  if x - ⌊x⌋ < 1 / 2 then ⌊x⌋
  else if 1 / 2 < x - ⌊x⌋ then ⌊x⌋ + 1
  else if ⌊x⌋ % 2 = 0 then ⌊x⌋ else ⌊x⌋ + 1

/-- Binary32 (`f32`) rounding of an exact rational value: round to nearest
with a 24-bit significand, ties to even.  The exponent is left unbounded,
which agrees with `f32` on every magnitude reached in this development
(all values stay far from overflow and from the subnormal range). -/
def f32Round (q : ℚ) : ℚ :=
  if q = 0 then 0
  else
    (if q < 0 then -1 else 1) *
      (roundEven (|q| * 2 ^ (23 - Int.log 2 |q|)) : ℚ) /
        2 ^ (23 - Int.log 2 |q|)

/-- Source `f32` addition (`px += step_x`): exact addition followed by
binary32 rounding, as IEEE-754 prescribes. -/
def f32Add (a b : ℚ) : ℚ := f32Round (a + b)

/-- Source `f32` division: the correctly rounded exact quotient, as
IEEE-754 prescribes. -/
def f32Div (a b : ℚ) : ℚ := f32Round (a / b)

/-- The successive values of the scan cursor `px` of `Line::draw`'s
general case: the start column, then one `f32` addition of the step per
row. -/
def pxSeq (px0 step : ℚ) : Nat → ℚ
  | 0 => px0
  | k + 1 => f32Add (pxSeq px0 step k) step

/-- The scan-line loop of `Line::draw`'s general case.  The fuel argument
is `ty - py` (the loop also stops when `py` reaches `ty`); the loop body
first checks `px != tx`.  The cursor update `px += step_x` is `f32`
addition; column arithmetic follows the source: floor/ceil on `f32`
(exact on the in-range values), cast `as i16` (saturating), `i16`
subtraction (wrapping), and `as usize` (sign-extending) for the two
`repeat` counts. -/
def lineRowsAux (symbol : Char) (step_x tx : ℚ) : Nat → ℚ → List Char
  | 0, _ => []
  | fuel + 1, px =>
    if px = tx then []
    else
      let prev_x := px
      let px2 := f32Add px step_x
      let str_start : Int := i16sat ⌊min px2 prev_x⌋
      let str_end : Int := i16sat ⌈max px2 prev_x⌉
      let str_len : Int := wrap16 (str_end - str_start)
      (List.replicate (usizeOf str_start) ' ' ++
        List.replicate (usizeOf str_len) symbol) ++
        '\n' :: lineRowsAux symbol step_x tx fuel px2

/-- Source `src/renderer/shapes.rs`: `Line` (the field `end` is reserved in Lean
and is called `stop` here). -/
structure Line where
  start : PVec2
  stop : PVec2
  symbol : Char

/-- Source `Line::draw`: the queued command sequence.  Three cases on the deltas
(computed through `as i16` casts): horizontal run via `put_str`, vertical
stack via `put_str`, general scan-line rasterization via
`put_str_transparent`.  In the general case the step `dx as f32 / dy as f32`
is the `f32`-rounded quotient (the `i16` operands themselves are exactly
representable in `f32`). -/
def Line.draw (self : Line) (plot : Plot) : List Cmd :=
  let dx : Int := wrap16 (toI16 self.stop.x - toI16 self.start.x)
  let dy : Int := wrap16 (toI16 self.stop.y - toI16 self.start.y)
  if dy = 0 then
    plot.put_str (List.replicate (usizeOf (wrap16 (dx.natAbs : Int))) self.symbol)
      (PVec2.new (min self.start.x self.stop.x) self.start.y)
  else if dx = 0 then
    plot.put_str
      ((List.replicate (usizeOf (wrap16 (dy.natAbs : Int)))
        ([self.symbol] ++ ['\n'])).flatten)
      (PVec2.new self.start.x (min self.start.y self.stop.y))
  else
    let step_x : ℚ := f32Div (dx : ℚ) (dy : ℚ)
    let px : ℚ := if step_x < 0 then (self.stop.x : ℚ) else (self.start.x : ℚ)
    let tx : ℚ := if step_x < 0 then (self.start.x : ℚ) else (self.stop.x : ℚ)
    let py : Nat := min self.start.y self.stop.y
    let ty : Nat := max self.start.y self.stop.y
    plot.put_str_transparent (lineRowsAux self.symbol step_x tx (ty - py) px)
      (PVec2.new self.start.x (min self.start.y self.stop.y))

/-- Source `src/renderer/shapes.rs`: `Rect`. -/
structure Rect where
  position : PVec2
  size : PVec2
  symbol : Char

/-- Source `Rect::draw`: four sequential `Line::draw` calls along the edges
(corner coordinates computed with `u16` addition). -/
def Rect.draw (self : Rect) (plot : Plot) : List Cmd :=
  let tl := self.position
  let tr := PVec2.new (u16add self.position.x self.size.x) self.position.y
  let bl := PVec2.new self.position.x (u16add self.position.y self.size.y)
  let br := PVec2.new (u16add self.position.x self.size.x)
    (u16add self.position.y self.size.y)
  Line.draw ⟨tl, tr, self.symbol⟩ plot ++ Line.draw ⟨bl, br, self.symbol⟩ plot ++
    Line.draw ⟨tl, bl, self.symbol⟩ plot ++ Line.draw ⟨tr, br, self.symbol⟩ plot

/-- C8, code-bug evidence: A zero-length line (start = end = `(2,2)`)
does not place its symbol: the code falls into the horizontal case with a
zero-length run, i.e. a `put_str` of the empty string, and the grid —
pre-filled with `'#'`-markers — is untouched (no single-point placement
happens). -/
theorem line_draw_degenerate :
    Line.draw ⟨PVec2.new 2 2, PVec2.new 2 2, '@'⟩ (Plot.new 5 5) =
      (Plot.new 5 5).put_str [] (PVec2.new 2 2) ∧
      (execList markerState
        (Line.draw ⟨PVec2.new 2 2, PVec2.new 2 2, '@'⟩ (Plot.new 5 5))).grid =
        markerState.grid := by
  constructor
  · decide
  · rfl

lemma wrap16_eq_self {z : Int} (h1 : -32768 ≤ z) (h2 : z ≤ 32767) :
    wrap16 z = z := by
  unfold wrap16
  omega

lemma wrap16_sub (a b : Int) : wrap16 (wrap16 a - wrap16 b) = wrap16 (a - b) := by
  unfold wrap16
  omega

lemma usizeOf_small {z : Int} (h0 : 0 ≤ z) (h : z < (USIZEMOD : Int)) :
    usizeOf z = z.toNat := by
  unfold usizeOf at *
  rw [Int.emod_eq_of_lt h0 h]

/-- C6, amended: For a horizontal line (`start.y = end.y`,
`start.x ≠ end.x`) whose horizontal extent fits in `i16`
(`|end.x − start.x| ≤ 32767`), `Line::draw` queues exactly one `put_str`
of `|dx|` copies of the symbol at `(min(start.x, end.x), start.y)`. -/
theorem line_draw_horizontal (p : Plot) (l : Line)
    (hy : l.start.y = l.stop.y) (_hx : l.start.x ≠ l.stop.x)
    (_hsx : l.start.x < U16MOD) (_hex : l.stop.x < U16MOD)
    (hd1 : (l.stop.x : Int) - (l.start.x : Int) ≤ 32767)
    (hd2 : (l.start.x : Int) - (l.stop.x : Int) ≤ 32767) :
    l.draw p = p.put_str
      (List.replicate (max l.start.x l.stop.x - min l.start.x l.stop.x) l.symbol)
      (PVec2.new (min l.start.x l.stop.x) l.start.y) := by
  have hdy : wrap16 (toI16 l.stop.y - toI16 l.start.y) = 0 := by
    rw [hy, sub_self]
    decide
  have hdx : wrap16 (toI16 l.stop.x - toI16 l.start.x) =
      (l.stop.x : Int) - l.start.x := by
    rw [toI16, toI16, wrap16_sub]
    exact wrap16_eq_self (by omega) (by omega)
  have habs : (((l.stop.x : Int) - l.start.x).natAbs : Int) =
      ((max l.start.x l.stop.x - min l.start.x l.stop.x : Nat) : Int) := by
    omega
  simp only [Line.draw]
  rw [hdy, hdx]
  rw [if_pos rfl]
  rw [habs]
  rw [wrap16_eq_self (by omega) (by omega)]
  rw [usizeOf_small (by omega) (by unfold USIZEMOD; omega)]
  rw [Int.toNat_natCast]

/-- Witness for C6: the spec's own example, `(0,0) → (4,0)` with `'*'`,
four stars at row 0 column 0. -/
theorem line_draw_horizontal_witness :
    Line.draw ⟨PVec2.new 0 0, PVec2.new 4 0, '*'⟩ (Plot.new 5 5) =
      (Plot.new 5 5).put_str (List.replicate 4 '*') (PVec2.new 0 0) := by
  have h := line_draw_horizontal (Plot.new 5 5)
    ⟨PVec2.new 0 0, PVec2.new 4 0, '*'⟩
    (by decide) (by decide) (by decide) (by decide) (by decide) (by decide)
  simpa using h

lemma clip_of_short {l : List Char} {m : Nat} (h : l.length % U16MOD ≤ m) :
    Plot.clip l m = l := by
  unfold Plot.clip
  rw [if_pos h]

lemma line_draw_dy0 (p : Plot) (s e : PVec2) (sym : Char)
    (h : wrap16 (toI16 e.y - toI16 s.y) = 0) :
    Line.draw ⟨s, e, sym⟩ p = p.put_str
      (List.replicate
        (usizeOf (wrap16 ((wrap16 (toI16 e.x - toI16 s.x)).natAbs : Int))) sym)
      (PVec2.new (min s.x e.x) s.y) := by
  simp only [Line.draw]
  rw [h, if_pos rfl]

/-- Counterexample to C6 as stated: for the horizontal line
`(0,0) → (40000,0)` the `u16 → i16` delta cast wraps, so the code emits a
run of 25536 symbols, not the `|dx| = 40000` the claim promises. -/
theorem line_draw_horizontal_overflow :
    Line.draw ⟨PVec2.new 0 0, PVec2.new 40000 0, '*'⟩ (Plot.new 65535 5) ≠
      (Plot.new 65535 5).put_str (List.replicate 40000 '*') (PVec2.new 0 0) := by
  intro h
  rw [line_draw_dy0 _ _ _ _ (by decide)] at h
  simp only [PVec2.new] at h
  rw [show usizeOf (wrap16 ((wrap16 (toI16 40000 - toI16 0)).natAbs : Int)) =
      25536 from by decide] at h
  rw [show min (0 : Nat) 40000 = 0 from by decide] at h
  unfold Plot.put_str at h
  rw [splitNl_no_nl (by rw [List.mem_replicate]; push_neg; intro _; decide),
    splitNl_no_nl (by rw [List.mem_replicate]; push_neg; intro _; decide)] at h
  simp only [List.flatMap_cons, List.flatMap_nil, List.append_nil,
    List.cons_append, List.nil_append, List.cons.injEq, Cmd.print.injEq] at h
  obtain ⟨-, -, -, hclip, -⟩ := h
  rw [clip_of_short (by rw [List.length_replicate]; decide),
    clip_of_short (by rw [List.length_replicate]; decide)] at hclip
  have hlen := congrArg List.length hclip
  rw [List.length_replicate, List.length_replicate] at hlen
  exact absurd hlen (by decide)

lemma printChar_saved (s : TermState) (c : Char) :
    (printChar s c).savedRow = s.savedRow ∧ (printChar s c).savedCol = s.savedCol := by
  unfold printChar
  split <;> exact ⟨rfl, rfl⟩

lemma printStr_saved (l : List Char) :
    ∀ s : TermState, (printStr s l).savedRow = s.savedRow ∧
      (printStr s l).savedCol = s.savedCol := by
  induction l with
  | nil => intro s; exact ⟨rfl, rfl⟩
  | cons c cs ih =>
    intro s
    unfold printStr at *
    simp only [List.foldl_cons]
    rw [(ih (printChar s c)).1, (ih (printChar s c)).2,
      (printChar_saved s c).1, (printChar_saved s c).2]
    exact ⟨rfl, rfl⟩

lemma printStr_nlfree_cursor {l : List Char} (hnl : '\n' ∉ l) :
    ∀ s : TermState, (printStr s l).row = s.row ∧
      (printStr s l).col = s.col + l.length := by
  induction l with
  | nil => intro s; exact ⟨rfl, by simp [printStr]⟩
  | cons c cs ih =>
    intro s
    have hc : c ≠ '\n' := fun h => hnl (h ▸ List.mem_cons_self c cs)
    have htl : '\n' ∉ cs := fun h => hnl (List.mem_cons_of_mem c h)
    unfold printStr at *
    simp only [List.foldl_cons]
    obtain ⟨h1, h2⟩ := ih htl (printChar s c)
    rw [h1, h2]
    unfold printChar
    rw [if_neg hc]
    refine ⟨rfl, ?_⟩
    simp only [List.length_cons]
    push_cast
    ring

lemma printStr_grid_outside {l : List Char} (hnl : '\n' ∉ l)
    (s : TermState) (r' c' : Int)
    (h : r' ≠ s.row ∨ c' < s.col ∨ s.col + l.length ≤ c') :
    (printStr s l).grid r' c' = s.grid r' c' := by
  induction l generalizing s with
  | nil => rfl
  | cons c cs ih =>
    have hc : c ≠ '\n' := fun h' => hnl (h' ▸ List.mem_cons_self c cs)
    have htl : '\n' ∉ cs := fun h' => hnl (List.mem_cons_of_mem c h')
    unfold printStr at *
    simp only [List.foldl_cons]
    have hstep : (printChar s c).row = s.row ∧ (printChar s c).col = s.col + 1 := by
      unfold printChar
      rw [if_neg hc]
      exact ⟨rfl, rfl⟩
    rw [ih htl (printChar s c) ?_]
    · unfold printChar
      rw [if_neg hc]
      show writeCell s.grid s.row s.col c r' c' = s.grid r' c'
      unfold writeCell
      rw [if_neg]
      rintro ⟨rfl, rfl⟩
      simp only [List.length_cons] at h
      rcases h with h | h | h
      · exact h rfl
      · omega
      · omega
    · rw [hstep.1, hstep.2]
      simp only [List.length_cons] at h
      rcases h with h | h | h
      · exact Or.inl h
      · exact Or.inr (Or.inl (by omega))
      · exact Or.inr (Or.inr (by push_cast at h ⊢; omega))

lemma execList_append (s : TermState) (cs cs' : List Cmd) :
    execList s (cs ++ cs') = execList (execList s cs) cs' := by
  unfold execList
  rw [List.foldl_append]

/-- The per-line command blocks emitted by `put_str`'s loop. -/
def lineBlocks (ax m : Nat) (lines : List (List Char)) : List Cmd :=
  lines.flatMap (fun line =>
    [Cmd.print (Plot.clip line m), Cmd.print ['\n'], Cmd.moveRight ax])

lemma put_str_eq_blocks (p : Plot) (content : List Char) (start : PVec2) :
    p.put_str content start =
      [Cmd.restore, Cmd.moveUp (u16sub p.height (p.clamp_to_plot start).y),
       Cmd.moveRight (p.clamp_to_plot start).x] ++
        lineBlocks (p.clamp_to_plot start).x
          (u16sub p.width (p.clamp_to_plot start).x) (splitNl content) := rfl

lemma clip_length_le (l : List Char) (m : Nat) :
    (Plot.clip l m).length ≤ l.length := by
  unfold Plot.clip
  split
  · exact le_refl _
  · rw [List.length_take]
    exact min_le_right _ _

lemma clip_no_nl {l : List Char} (h : '\n' ∉ l) (m : Nat) :
    '\n' ∉ Plot.clip l m :=
  fun hc => h (clip_subset _ hc)

lemma execBlock (s : TermState) (A : List Char) (ax : Nat) :
    execList s [Cmd.print A, Cmd.print ['\n'], Cmd.moveRight ax] =
      { grid := (printStr s A).grid, row := (printStr s A).row + 1,
        col := 0 + (ax : Int), savedRow := (printStr s A).savedRow,
        savedCol := (printStr s A).savedCol } := by
  show execCmd (execCmd (execCmd s (Cmd.print A)) (Cmd.print ['\n']))
    (Cmd.moveRight ax) = _
  unfold execCmd
  unfold printStr
  simp only [List.foldl_cons, List.foldl_nil]
  unfold printChar
  rw [if_pos rfl]

lemma lineBlocks_grid (ax m : Nat) :
    ∀ (lines : List (List Char)) (s : TermState), s.col = (ax : Int) →
      ∀ (r' c' : Int),
      (∀ l ∈ lines, '\n' ∉ l) →
      (∀ i < lines.length, r' ≠ s.row + i ∨ c' < (ax : Int) ∨
        (ax : Int) + (Plot.clip (lines.getD i []) m).length ≤ c') →
      (execList s (lineBlocks ax m lines)).grid r' c' = s.grid r' c' := by
  intro lines
  induction lines with
  | nil => intro s _ r' c' _ _; rfl
  | cons l ls ih =>
    intro s hcol r' c' hnl hout
    have hnl_l : '\n' ∉ Plot.clip l m :=
      clip_no_nl (hnl l (List.mem_cons_self l ls)) m
    have hnl_ls : ∀ l' ∈ ls, '\n' ∉ l' :=
      fun l' hl' => hnl l' (List.mem_cons_of_mem l hl')
    unfold lineBlocks at *
    simp only [List.flatMap_cons]
    rw [execList_append, execBlock]
    have hcur := printStr_nlfree_cursor hnl_l s
    rw [ih _ (by simp) r' c' hnl_ls ?_]
    · show (printStr s (Plot.clip l m)).grid r' c' = s.grid r' c'
      apply printStr_grid_outside hnl_l
      have h0 := hout 0 (by simp)
      simpa [hcol] using h0
    · intro i hi
      have h1 := hout (i + 1) (by simpa using Nat.succ_lt_succ hi)
      rcases h1 with h1 | h1 | h1
      · left
        show r' ≠ (printStr s (Plot.clip l m)).row + 1 + i
        rw [hcur.1]
        push_cast at h1 ⊢
        omega
      · exact Or.inr (Or.inl h1)
      · right; right
        simpa using h1

lemma put_str_grid_outside (p : Plot) (content : List Char) (start : PVec2)
    (s : TermState) (hsaved : s.savedCol = 0) (r' c' : Int)
    (hnl : ∀ l ∈ splitNl content, '\n' ∉ l)
    (hout : ∀ i < (splitNl content).length,
      r' ≠ s.savedRow - ((u16sub p.height (p.clamp_to_plot start).y : Nat) : Int) + i ∨
      c' < ((p.clamp_to_plot start).x : Int) ∨
      ((p.clamp_to_plot start).x : Int) +
        (Plot.clip ((splitNl content).getD i [])
          (u16sub p.width (p.clamp_to_plot start).x)).length ≤ c') :
    (execList s (p.put_str content start)).grid r' c' = s.grid r' c' := by
  rw [put_str_eq_blocks, execList_append]
  have hpre : execList s [Cmd.restore,
      Cmd.moveUp (u16sub p.height (p.clamp_to_plot start).y),
      Cmd.moveRight (p.clamp_to_plot start).x] =
      { s with
        row := s.savedRow - ((u16sub p.height (p.clamp_to_plot start).y : Nat) : Int),
        col := s.savedCol + ((p.clamp_to_plot start).x : Int) } := rfl
  rw [hpre]
  exact lineBlocks_grid _ _ _ _ (by rw [hsaved]; ring) r' c' hnl (by simpa using hout)

lemma execCmd_saved (s : TermState) (c : Cmd) (h : c ≠ Cmd.save) :
    (execCmd s c).savedRow = s.savedRow ∧ (execCmd s c).savedCol = s.savedCol := by
  cases c with
  | restore => exact ⟨rfl, rfl⟩
  | save => exact absurd rfl h
  | moveUp n => exact ⟨rfl, rfl⟩
  | moveDown n => exact ⟨rfl, rfl⟩
  | moveRight n => exact ⟨rfl, rfl⟩
  | print l => exact printStr_saved l s

lemma execList_saved :
    ∀ (cs : List Cmd), Cmd.save ∉ cs → ∀ s : TermState,
      (execList s cs).savedRow = s.savedRow ∧
      (execList s cs).savedCol = s.savedCol := by
  intro cs
  induction cs with
  | nil => intro _ s; exact ⟨rfl, rfl⟩
  | cons c rest ih =>
    intro h s
    have hc : c ≠ Cmd.save := fun hc => h (hc ▸ List.mem_cons_self c rest)
    have hrest : Cmd.save ∉ rest := fun hr => h (List.mem_cons_of_mem c hr)
    unfold execList at *
    simp only [List.foldl_cons]
    obtain ⟨h1, h2⟩ := ih hrest (execCmd s c)
    obtain ⟨h3, h4⟩ := execCmd_saved s c hc
    exact ⟨h1.trans h3, h2.trans h4⟩

lemma put_str_no_save (p : Plot) (content : List Char) (start : PVec2) :
    Cmd.save ∉ p.put_str content start := by
  intro hmem
  simp [Plot.put_str] at hmem

lemma splitNl_cons (c : Char) (cs : List Char) :
    splitNl (c :: cs) = if c = '\n' then [] :: splitNl cs else
      match splitNl cs with
      | [] => [[c]]
      | hd :: tl => (c :: hd) :: tl := rfl

lemma splitNl_flatten_symNl {sym : Char} (hsym : sym ≠ '\n') :
    ∀ n, splitNl ((List.replicate n ([sym] ++ ['\n'])).flatten) =
      List.replicate n [sym] ++ [[]] := by
  intro n
  induction n with
  | zero => rfl
  | succ n ih =>
    simp only [List.replicate_succ, List.flatten_cons, List.cons_append,
      List.nil_append] at ih ⊢
    rw [splitNl_cons, if_neg hsym, splitNl_cons, if_pos rfl, ih]

lemma getD_length_le :
    ∀ (L : List (List Char)), (∀ l ∈ L, l.length ≤ 1) →
      ∀ i, (L.getD i []).length ≤ 1 := by
  intro L
  induction L with
  | nil =>
    intro _ i
    simp [List.getD]
  | cons a as ih =>
    intro h i
    cases i with
    | zero => simpa using h a (List.mem_cons_self a as)
    | succ j =>
      rw [List.getD_cons_succ]
      exact ih (fun l hl => h l (List.mem_cons_of_mem a hl)) j

lemma clamp_of_le {n upper : Nat} (h : n ≤ upper) : Plot.clamp n 0 upper = n := by
  unfold Plot.clamp
  omega

lemma clamp_to_plot_new (W H : Nat) (q : PVec2) (hx : q.x ≤ W) (hy : q.y ≤ H) :
    (Plot.new W H).clamp_to_plot q = q := by
  obtain ⟨qx, qy⟩ := q
  simp only at hx hy
  unfold Plot.clamp_to_plot Plot.clamp_point Plot.new
  simp only
  rw [clamp_of_le hx, clamp_of_le hy]

lemma wrap16_ne_zero {z : Int} (h0 : z ≠ 0) (h1 : -65536 < z) (h2 : z < 65536) :
    wrap16 z ≠ 0 := by
  unfold wrap16
  omega

lemma line_draw_dx0 (p : Plot) (s e : PVec2) (sym : Char)
    (hdy : wrap16 (toI16 e.y - toI16 s.y) ≠ 0)
    (hdx : wrap16 (toI16 e.x - toI16 s.x) = 0) :
    Line.draw ⟨s, e, sym⟩ p = p.put_str
      ((List.replicate
        (usizeOf (wrap16 ((wrap16 (toI16 e.y - toI16 s.y)).natAbs : Int)))
        ([sym] ++ ['\n'])).flatten)
      (PVec2.new s.x (min s.y e.y)) := by
  simp only [Line.draw]
  rw [if_neg hdy, hdx, if_pos rfl]

lemma seg_horiz_grid (W H n : Nat) (sym : Char) (ax ay : Nat)
    (s : TermState) (hsaved : s.savedCol = 0) (hx : ax ≤ W) (hyH : ay ≤ H)
    (hH : H < U16MOD) (hsym : sym ≠ '\n') (r' c' : Int)
    (hr : r' ≠ s.savedRow - (H : Int) + (ay : Int)) :
    (execList s ((Plot.new W H).put_str (List.replicate n sym)
      (PVec2.new ax ay))).grid r' c' = s.grid r' c' := by
  have hnn : '\n' ∉ List.replicate n sym := by
    intro hm
    exact hsym ((List.eq_of_mem_replicate hm).symm)
  have hcl : (Plot.new W H).clamp_to_plot (PVec2.new ax ay) = PVec2.new ax ay :=
    clamp_to_plot_new W H _ (by simpa [PVec2.new] using hx)
      (by simpa [PVec2.new] using hyH)
  apply put_str_grid_outside _ _ _ _ hsaved
  · rw [splitNl_no_nl hnn]
    intro l hl
    simp only [List.mem_singleton] at hl
    subst hl
    exact hnn
  · rw [splitNl_no_nl hnn, hcl]
    intro i hi
    simp only [List.length_singleton] at hi
    have hi0 : i = 0 := by omega
    subst hi0
    left
    simp only [PVec2.new, Plot.new]
    rw [u16sub_of_le hyH hH]
    push_cast [Nat.cast_sub hyH]
    omega

lemma seg_vert_grid (W H n : Nat) (sym : Char) (ax ay : Nat)
    (s : TermState) (hsaved : s.savedCol = 0) (hx : ax ≤ W) (hyH : ay ≤ H)
    (hsym : sym ≠ '\n') (r' c' : Int) (hc : c' ≠ (ax : Int)) :
    (execList s ((Plot.new W H).put_str
      ((List.replicate n ([sym] ++ ['\n'])).flatten)
      (PVec2.new ax ay))).grid r' c' = s.grid r' c' := by
  have hcl : (Plot.new W H).clamp_to_plot (PVec2.new ax ay) = PVec2.new ax ay :=
    clamp_to_plot_new W H _ (by simpa [PVec2.new] using hx)
      (by simpa [PVec2.new] using hyH)
  have hmem1 : ∀ l ∈ List.replicate n [sym] ++ [[]], l.length ≤ 1 := by
    intro l hl
    rcases List.mem_append.mp hl with h | h
    · rw [List.eq_of_mem_replicate h]
      simp
    · simp only [List.mem_singleton] at h
      subst h
      simp
  apply put_str_grid_outside _ _ _ _ hsaved
  · rw [splitNl_flatten_symNl hsym]
    intro l hl
    rcases List.mem_append.mp hl with h | h
    · rw [List.eq_of_mem_replicate h]
      simp only [List.mem_singleton]
      exact fun h' => hsym h'.symm
    · simp only [List.mem_singleton] at h
      subst h
      simp
  · rw [splitNl_flatten_symNl hsym, hcl]
    intro i hi
    right
    have hlen : (Plot.clip ((List.replicate n [sym] ++ [[]]).getD i [])
        (u16sub (Plot.new W H).width ((PVec2.new ax ay)).x)).length ≤ 1 :=
      le_trans (clip_length_le _ _) (getD_length_le _ hmem1 i)
    simp only [PVec2.new] at *
    rcases lt_or_gt_of_ne hc with h | h
    · left
      exact h
    · right
      omega

/-- C9, amended: For a rectangle that lies inside the plot
(`pos + size ≤ (width, height)` componentwise) with positive extent and a
printable (non-newline) symbol, `Rect::draw` queues exactly the four edge
`Line::draw` command sequences, and — relative to an anchor saved at
column 0 — writes nothing to any cell strictly inside the rectangle. -/
theorem rect_draw_boundary_only (W H : Nat) (r : Rect) (s : TermState)
    (x y : Nat)
    (hw : 0 < r.size.x) (hh : 0 < r.size.y)
    (hxb : r.position.x + r.size.x ≤ W) (hyb : r.position.y + r.size.y ≤ H)
    (hW : W < U16MOD) (hH : H < U16MOD)
    (hsym : r.symbol ≠ '\n') (hsaved : s.savedCol = 0)
    (hx1 : r.position.x < x) (hx2 : x < r.position.x + r.size.x)
    (hy1 : r.position.y < y) (hy2 : y < r.position.y + r.size.y) :
    r.draw (Plot.new W H) =
      Line.draw ⟨r.position,
        PVec2.new (u16add r.position.x r.size.x) r.position.y, r.symbol⟩
        (Plot.new W H) ++
      Line.draw ⟨PVec2.new r.position.x (u16add r.position.y r.size.y),
        PVec2.new (u16add r.position.x r.size.x) (u16add r.position.y r.size.y),
        r.symbol⟩ (Plot.new W H) ++
      Line.draw ⟨r.position,
        PVec2.new r.position.x (u16add r.position.y r.size.y), r.symbol⟩
        (Plot.new W H) ++
      Line.draw ⟨PVec2.new (u16add r.position.x r.size.x) r.position.y,
        PVec2.new (u16add r.position.x r.size.x) (u16add r.position.y r.size.y),
        r.symbol⟩ (Plot.new W H) ∧
    (execList s (r.draw (Plot.new W H))).grid
        (s.savedRow - (H : Int) + (y : Int)) (x : Int) =
      s.grid (s.savedRow - (H : Int) + (y : Int)) (x : Int) := by
  obtain ⟨⟨px0, py0⟩, ⟨w, h⟩, sym⟩ := r
  simp only at hw hh hxb hyb hsym hx1 hx2 hy1 hy2
  refine ⟨rfl, ?_⟩
  have hW' : W < 65536 := by unfold U16MOD at hW; exact hW
  have hH' : H < 65536 := by unfold U16MOD at hH; exact hH
  have hu1 : u16add px0 w = px0 + w := u16add_eq _ _ (by unfold U16MOD; omega)
  have hu2 : u16add py0 h = py0 + h := u16add_eq _ _ (by unfold U16MOD; omega)
  have hdy0 : ∀ a : Nat, wrap16 (toI16 a - toI16 a) = 0 := by
    intro a
    rw [sub_self]
    decide
  have hdyh : wrap16 (toI16 (py0 + h) - toI16 py0) ≠ 0 := by
    rw [toI16, toI16, wrap16_sub]
    have hc : ((py0 + h : Nat) : Int) - (py0 : Int) = (h : Int) := by
      push_cast
      ring
    rw [hc]
    exact wrap16_ne_zero (by omega) (by omega) (by omega)
  have hminx : min px0 (px0 + w) = px0 := min_eq_left (Nat.le_add_right _ _)
  have hminy : min py0 (py0 + h) = py0 := min_eq_left (Nat.le_add_right _ _)
  simp only [Rect.draw, PVec2.new]
  rw [hu1, hu2]
  rw [line_draw_dy0 (Plot.new W H) ⟨px0, py0⟩ ⟨px0 + w, py0⟩ sym (hdy0 py0)]
  rw [line_draw_dy0 (Plot.new W H) ⟨px0, py0 + h⟩ ⟨px0 + w, py0 + h⟩ sym
    (hdy0 (py0 + h))]
  rw [line_draw_dx0 (Plot.new W H) ⟨px0, py0⟩ ⟨px0, py0 + h⟩ sym hdyh (hdy0 px0)]
  rw [line_draw_dx0 (Plot.new W H) ⟨px0 + w, py0⟩ ⟨px0 + w, py0 + h⟩ sym hdyh
    (hdy0 (px0 + w))]
  rw [hminx, hminy]
  dsimp only
  rw [execList_append, execList_append, execList_append]
  have hsv : ∀ (s' : TermState) (content : List Char) (pt : PVec2),
      (execList s' ((Plot.new W H).put_str content pt)).savedRow = s'.savedRow ∧
      (execList s' ((Plot.new W H).put_str content pt)).savedCol = s'.savedCol :=
    fun s' content pt => execList_saved _ (put_str_no_save _ _ _) s'
  rw [seg_vert_grid W H _ sym (px0 + w) py0 _
    (by rw [(hsv _ _ _).2, (hsv _ _ _).2, (hsv _ _ _).2, hsaved])
    (by omega) (by omega) hsym _ _ (by exact_mod_cast ne_of_lt hx2)]
  rw [seg_vert_grid W H _ sym px0 py0 _
    (by rw [(hsv _ _ _).2, (hsv _ _ _).2, hsaved])
    (by omega) (by omega) hsym _ _ (by exact_mod_cast ne_of_gt hx1)]
  rw [seg_horiz_grid W H _ sym px0 (py0 + h) _
    (by rw [(hsv _ _ _).2, hsaved]) (by omega) (by omega) hH hsym _ _
    (by rw [(hsv _ _ _).1]; push_cast; omega)]
  rw [seg_horiz_grid W H _ sym px0 py0 _ hsaved (by omega) (by omega) hH hsym _ _
    (by omega)]

/-- A concrete terminal state whose grid is pre-filled with `'.'`,
anchored at `(5, 0)`. -/
def dotState : TermState :=
  { grid := fun _ _ => '.', row := 0, col := 0, savedRow := 5, savedCol := 0 }

/-- Witness for C9: the 3×3 rectangle at `(1,1)` on a 10×10 plot leaves
the interior cell `(2,2)` untouched. -/
theorem rect_draw_boundary_only_witness :
    Rect.draw ⟨PVec2.new 1 1, PVec2.new 3 3, '#'⟩ (Plot.new 10 10) =
      Line.draw ⟨PVec2.new 1 1, PVec2.new (u16add 1 3) 1, '#'⟩ (Plot.new 10 10) ++
      Line.draw ⟨PVec2.new 1 (u16add 1 3), PVec2.new (u16add 1 3) (u16add 1 3), '#'⟩
        (Plot.new 10 10) ++
      Line.draw ⟨PVec2.new 1 1, PVec2.new 1 (u16add 1 3), '#'⟩ (Plot.new 10 10) ++
      Line.draw ⟨PVec2.new (u16add 1 3) 1, PVec2.new (u16add 1 3) (u16add 1 3), '#'⟩
        (Plot.new 10 10) ∧
    (execList dotState
        (Rect.draw ⟨PVec2.new 1 1, PVec2.new 3 3, '#'⟩ (Plot.new 10 10))).grid
        (dotState.savedRow - (10 : Int) + (2 : Int)) (2 : Int) =
      dotState.grid (dotState.savedRow - (10 : Int) + (2 : Int)) (2 : Int) := by
  have h := rect_draw_boundary_only 10 10 ⟨PVec2.new 1 1, PVec2.new 3 3, '#'⟩
    dotState 2 2 (by decide) (by decide) (by decide) (by decide) (by decide)
    (by decide) (by decide) (by decide) (by decide) (by decide) (by decide)
    (by decide)
  exact h

/-- Counterexample to C9 as stated: for the 3×10 rectangle at `(0,0)` on a
5×5 plot (positive sizes, but taller than the plot), the bottom edge is
clamped onto row 5, which lies strictly inside the rectangle: the interior
cell `(1,5)` (terminal cell `(5,1)`) is overwritten with `'#'`. -/
theorem rect_draw_out_of_bounds_interior :
    (execList dotState
        (Rect.draw ⟨PVec2.new 0 0, PVec2.new 3 10, '#'⟩ (Plot.new 5 5))).grid
        5 1 = '#' ∧
      dotState.grid 5 1 = '.' := by
  constructor
  · decide
  · rfl

/-- The spec-side description of one scan-line row: blank padding out to
`⌊min(px_k, px_(k+1))⌋` followed by the symbol across
`⌈max⌉ − ⌊min⌋` columns, where `px_k` is the `f32` scan-cursor value
after `k` steps (the claim's `px` advancing by `step_x` per row). -/
def specRow (sym : Char) (px0 step : ℚ) (k : Nat) : List Char :=
  let p := pxSeq px0 step k
  let q := pxSeq px0 step (k + 1)
  List.replicate (⌊min p q⌋).toNat ' ' ++
    List.replicate (⌈max p q⌉ - ⌊min p q⌋).toNat sym

/-- The spec-side description of the joined scan-line rows: one row per
unit step in `y`, each terminated by a newline. -/
def specRows (sym : Char) (px0 step : ℚ) (n : Nat) : List Char :=
  ((List.range n).map (fun k => specRow sym px0 step k ++ ['\n'])).flatten

/-- The scan step of the claim: the `f32` quotient `dx / dy` of the true
integer deltas. -/
def lineStep (l : Line) : ℚ :=
  f32Div (((l.stop.x : Int) - (l.start.x : Int) : Int) : ℚ)
    (((l.stop.y : Int) - (l.start.y : Int) : Int) : ℚ)

/-- The starting value of the scan cursor `px` (the endpoint from which
the step direction is non-negative, as in the source). -/
def linePx0 (l : Line) : ℚ :=
  if lineStep l < 0 then (l.stop.x : ℚ) else (l.start.x : ℚ)

/-- The column at which the scan stops (the endpoint opposite the one the
cursor starts from). -/
def lineTx (l : Line) : ℚ :=
  if lineStep l < 0 then (l.start.x : ℚ) else (l.stop.x : ℚ)

/-- The number of unit steps in `y`. -/
def lineN (l : Line) : Nat :=
  max l.start.y l.stop.y - min l.start.y l.stop.y

lemma pxSeq_zero (px0 step : ℚ) : pxSeq px0 step 0 = px0 := rfl

lemma roundEven_intCast (z : Int) : roundEven (z : ℚ) = z := by
  unfold roundEven
  rw [Int.floor_intCast, sub_self, if_pos (by norm_num)]

lemma f32Round_intCast (z : Int) (hz : z.natAbs < 2 ^ 24) :
    f32Round (z : ℚ) = (z : ℚ) := by
  by_cases h0 : z = 0
  · subst h0
    simp [f32Round]
  · have hne : (z : ℚ) ≠ 0 := Int.cast_ne_zero.mpr h0
    have hnab : z.natAbs ≠ 0 := Int.natAbs_ne_zero.mpr h0
    have habs : |(z : ℚ)| = (z.natAbs : ℚ) := by
      rw [← Int.cast_abs, Int.abs_eq_natAbs, Int.cast_natCast]
    have hlog : Int.log 2 |(z : ℚ)| = (Nat.log 2 z.natAbs : ℤ) := by
      rw [habs, Int.log_natCast]
    have hlt : Nat.log 2 z.natAbs < 24 := Nat.log_lt_of_lt_pow hnab hz
    have hsub : (23 : ℤ) - Int.log 2 |(z : ℚ)| =
        ((23 - Nat.log 2 z.natAbs : ℕ) : ℤ) := by
      rw [hlog]
      omega
    unfold f32Round
    rw [if_neg hne, hsub, zpow_natCast, habs]
    have hm : ((z.natAbs : ℚ) * 2 ^ (23 - Nat.log 2 z.natAbs)) =
        (((z.natAbs * 2 ^ (23 - Nat.log 2 z.natAbs) : ℕ) : ℤ) : ℚ) := by
      push_cast
      rw [habs]
    rw [hm, roundEven_intCast]
    have h2 : ((2 : ℚ) ^ (23 - Nat.log 2 z.natAbs)) ≠ 0 := by positivity
    have hcast : ((((z.natAbs * 2 ^ (23 - Nat.log 2 z.natAbs) : ℕ) : ℤ)) : ℚ) =
        (z.natAbs : ℚ) * 2 ^ (23 - Nat.log 2 z.natAbs) := by
      push_cast
      rw [habs]
    rw [hcast]
    rcases lt_trichotomy z 0 with hzn | hz0 | hzp
    · rw [if_pos (show (z : ℚ) < 0 from by exact_mod_cast hzn)]
      have hval : ((z.natAbs : ℚ)) = -(z : ℚ) := by
        rw [← habs, abs_of_neg (show (z : ℚ) < 0 from by exact_mod_cast hzn)]
      rw [hval]
      field_simp
    · exact absurd hz0 h0
    · rw [if_neg (not_lt.mpr (le_of_lt
        (show (0 : ℚ) < z from by exact_mod_cast hzp)))]
      have hval : ((z.natAbs : ℚ)) = (z : ℚ) := by
        rw [← habs, abs_of_pos (show (0 : ℚ) < z from by exact_mod_cast hzp)]
      rw [hval]
      field_simp

lemma f32Round_natCast (n : Nat) (h : n < 2 ^ 24) :
    f32Round (n : ℚ) = (n : ℚ) := by
  have heq := f32Round_intCast (n : Int) (by simpa using h)
  push_cast at heq
  exact heq

lemma f32Round_one : f32Round 1 = 1 := by
  have h := f32Round_natCast 1 (by norm_num)
  push_cast at h
  exact h

lemma f32Round_neg_two : f32Round (-2 : ℚ) = -2 := by
  have h := f32Round_intCast (-2) (by norm_num)
  push_cast at h
  exact h

lemma pxSeq_diag : ∀ k : Nat, k < 2 ^ 24 → pxSeq 0 1 k = (k : ℚ) := by
  intro k
  induction k with
  | zero =>
    intro _
    simp [pxSeq]
  | succ k ih =>
    intro hk
    show f32Add (pxSeq 0 1 k) 1 = ((k + 1 : ℕ) : ℚ)
    rw [ih (by omega)]
    unfold f32Add
    rw [show (k : ℚ) + 1 = ((k + 1 : ℕ) : ℚ) from by push_cast; ring]
    exact f32Round_natCast (k + 1) hk

lemma i16sat_eq {z : Int} (h1 : -32768 ≤ z) (h2 : z ≤ 32767) : i16sat z = z := by
  unfold i16sat
  omega

lemma row_eval (sym : Char) (p q : ℚ) (h0p : 0 ≤ p) (h0q : 0 ≤ q)
    (hp : p ≤ 32767) (hq : q ≤ 32767) :
    List.replicate (usizeOf (i16sat ⌊min q p⌋)) ' ' ++
      List.replicate (usizeOf (wrap16 (i16sat ⌈max q p⌉ - i16sat ⌊min q p⌋))) sym =
    List.replicate (⌊min p q⌋).toNat ' ' ++
      List.replicate (⌈max p q⌉ - ⌊min p q⌋).toNat sym := by
  have hfl0 : 0 ≤ ⌊min q p⌋ := Int.le_floor.mpr (by
    push_cast
    exact le_min h0q h0p)
  have hflle : ⌊min q p⌋ ≤ 32767 := by
    have h := Int.floor_le (min q p)
    have : (⌊min q p⌋ : ℚ) ≤ 32767 := le_trans h (le_trans (min_le_right _ _) hp)
    exact_mod_cast this
  have hce0 : 0 ≤ ⌈max q p⌉ := by
    have h := Int.le_ceil (max q p)
    have : (0 : ℚ) ≤ (⌈max q p⌉ : ℚ) := le_trans (le_trans h0q (le_max_left _ _)) h
    exact_mod_cast this
  have hcele : ⌈max q p⌉ ≤ 32767 := Int.ceil_le.mpr (by
    push_cast
    exact max_le hq hp)
  have hfc : ⌊min q p⌋ ≤ ⌈max q p⌉ :=
    le_trans (Int.floor_le_floor (min_le_max)) (Int.floor_le_ceil _)
  rw [i16sat_eq (by omega) (by omega), i16sat_eq (by omega) (by omega)]
  rw [wrap16_eq_self (by omega) (by omega)]
  rw [usizeOf_small (by omega) (by unfold USIZEMOD; omega)]
  rw [usizeOf_small (by omega) (by unfold USIZEMOD; omega)]
  rw [min_comm q p, max_comm q p]

lemma specRow_eval (sym : Char) (px0 step : ℚ) (k : Nat) :
    specRow sym px0 step k =
      List.replicate (⌊min (pxSeq px0 step k) (pxSeq px0 step (k + 1))⌋).toNat
          ' ' ++
        List.replicate (⌈max (pxSeq px0 step k) (pxSeq px0 step (k + 1))⌉ -
          ⌊min (pxSeq px0 step k) (pxSeq px0 step (k + 1))⌋).toNat sym := rfl

lemma lineRowsAux_eq (sym : Char) (step tx px0 : ℚ) (n : Nat)
    (hne : ∀ k : Nat, k < n → pxSeq px0 step k ≠ tx)
    (hbd : ∀ k : Nat, k ≤ n → 0 ≤ pxSeq px0 step k ∧
      pxSeq px0 step k ≤ 32767) :
    ∀ m : Nat, m ≤ n →
      lineRowsAux sym step tx m (pxSeq px0 step (n - m)) =
        ((List.range m).map
          (fun k => specRow sym px0 step ((n - m) + k) ++ ['\n'])).flatten := by
  intro m
  induction m with
  | zero => intro _; rfl
  | succ m ih =>
    intro hm
    have hj : n - (m + 1) < n := by omega
    have hjm : n - m = (n - (m + 1)) + 1 := by omega
    have hunf : lineRowsAux sym step tx (m + 1)
        (pxSeq px0 step (n - (m + 1))) =
        if pxSeq px0 step (n - (m + 1)) = tx then [] else
          (List.replicate (usizeOf (i16sat
              ⌊min (f32Add (pxSeq px0 step (n - (m + 1))) step)
                (pxSeq px0 step (n - (m + 1)))⌋)) ' ' ++
            List.replicate (usizeOf (wrap16 (i16sat
              ⌈max (f32Add (pxSeq px0 step (n - (m + 1))) step)
                (pxSeq px0 step (n - (m + 1)))⌉ -
              i16sat ⌊min (f32Add (pxSeq px0 step (n - (m + 1))) step)
                (pxSeq px0 step (n - (m + 1)))⌋))) sym) ++
            '\n' :: lineRowsAux sym step tx m
              (f32Add (pxSeq px0 step (n - (m + 1))) step) := rfl
    rw [hunf, if_neg (hne _ hj)]
    have hstep1 : f32Add (pxSeq px0 step (n - (m + 1))) step =
        pxSeq px0 step ((n - (m + 1)) + 1) := rfl
    rw [hstep1]
    have hb1 := hbd (n - (m + 1)) (le_of_lt hj)
    have hb2 := hbd ((n - (m + 1)) + 1) (by omega)
    rw [row_eval sym (pxSeq px0 step (n - (m + 1)))
      (pxSeq px0 step ((n - (m + 1)) + 1)) hb1.1 hb2.1 hb1.2 hb2.2]
    rw [← specRow_eval sym px0 step (n - (m + 1))]
    have ih2 := ih (by omega)
    rw [hjm] at ih2
    rw [ih2]
    rw [List.range_succ_eq_map]
    simp only [List.map_cons, List.map_map, List.flatten_cons, Nat.add_zero]
    rw [List.append_cons]
    apply congrArg
      (fun t => (specRow sym px0 step (n - (m + 1)) ++ ['\n']) ++ t)
    apply congrArg
    apply List.map_congr_left
    intro k _
    simp only [Function.comp, Nat.succ_eq_add_one]
    rw [show (n - (m + 1)) + 1 + k = (n - (m + 1)) + (k + 1) from by omega]

lemma line_draw_general_aux (p : Plot) (l : Line)
    (hsx : l.start.x ≤ 32767) (hsy : l.start.y ≤ 32767)
    (hex : l.stop.x ≤ 32767) (hey : l.stop.y ≤ 32767)
    (hdx : l.start.x ≠ l.stop.x) (hdy : l.start.y ≠ l.stop.y)
    (hne : ∀ k : Nat, k < lineN l →
      pxSeq (linePx0 l) (lineStep l) k ≠ lineTx l)
    (hbd : ∀ k : Nat, k ≤ lineN l →
      0 ≤ pxSeq (linePx0 l) (lineStep l) k ∧
        pxSeq (linePx0 l) (lineStep l) k ≤ 32767) :
    l.draw p = p.put_str_transparent
      (specRows l.symbol (linePx0 l) (lineStep l) (lineN l))
      (PVec2.new l.start.x (min l.start.y l.stop.y)) := by
  obtain ⟨⟨sx, sy⟩, ⟨ex, ey⟩, sym⟩ := l
  simp only [linePx0, lineTx, lineStep, lineN] at hne hbd ⊢
  simp only at hsx hsy hex hey hdx hdy hne hbd ⊢
  have hdxc : wrap16 (toI16 ex - toI16 sx) = (ex : Int) - sx := by
    rw [toI16, toI16, wrap16_sub]
    exact wrap16_eq_self (by omega) (by omega)
  have hdyc : wrap16 (toI16 ey - toI16 sy) = (ey : Int) - sy := by
    rw [toI16, toI16, wrap16_sub]
    exact wrap16_eq_self (by omega) (by omega)
  have hdxne : (ex : Int) - sx ≠ 0 := by omega
  have hdyne : (ey : Int) - sy ≠ 0 := by omega
  simp only [Line.draw]
  rw [hdyc, hdxc]
  rw [if_neg hdyne, if_neg hdxne]
  apply congrArg (fun content => p.put_str_transparent content
    (PVec2.new sx (min sy ey)))
  have h := lineRowsAux_eq sym
    (f32Div ((((ex : Int) - (sx : Int) : Int) : ℚ))
      ((((ey : Int) - (sy : Int) : Int) : ℚ)))
    (if f32Div ((((ex : Int) - (sx : Int) : Int) : ℚ))
        ((((ey : Int) - (sy : Int) : Int) : ℚ)) < 0
      then (sx : ℚ) else (ex : ℚ))
    (if f32Div ((((ex : Int) - (sx : Int) : Int) : ℚ))
        ((((ey : Int) - (sy : Int) : Int) : ℚ)) < 0
      then (ex : ℚ) else (sx : ℚ))
    (max sy ey - min sy ey) hne hbd (max sy ey - min sy ey) (le_refl _)
  rw [Nat.sub_self, pxSeq_zero] at h
  simp only [Nat.zero_add] at h
  rw [h]
  rfl

lemma specRow_diag (k : Nat) (hk : k + 1 < 2 ^ 24) :
    specRow '#' 0 1 k = List.replicate k ' ' ++ ['#'] := by
  simp only [specRow]
  rw [pxSeq_diag k (by omega), pxSeq_diag (k + 1) hk]
  rw [show ((k + 1 : Nat) : ℚ) = (k : ℚ) + 1 from by push_cast; ring]
  have h3 : min (k : ℚ) ((k : ℚ) + 1) = (k : ℚ) := min_eq_left (by linarith)
  have h4 : max (k : ℚ) ((k : ℚ) + 1) = (k : ℚ) + 1 := max_eq_right (by linarith)
  rw [h3, h4, Int.floor_natCast]
  have h5 : ⌈(k : ℚ) + 1⌉ = (k : Int) + 1 := by
    rw [Int.ceil_add_one, Int.ceil_natCast]
  rw [h5]
  simp

lemma lineStep_diag_ex : lineStep ⟨PVec2.new 0 0, PVec2.new 4 4, '#'⟩ = 1 := by
  unfold lineStep f32Div PVec2.new
  rw [show ((((4 : Nat) : Int) - ((0 : Nat) : Int) : Int) : ℚ) /
      ((((4 : Nat) : Int) - ((0 : Nat) : Int) : Int) : ℚ) = 1 from by norm_num]
  exact f32Round_one

lemma linePx0_diag_ex : linePx0 ⟨PVec2.new 0 0, PVec2.new 4 4, '#'⟩ = 0 := by
  unfold linePx0
  rw [lineStep_diag_ex, if_neg (by norm_num)]
  norm_num [PVec2.new]

lemma lineTx_diag_ex : lineTx ⟨PVec2.new 0 0, PVec2.new 4 4, '#'⟩ = 4 := by
  unfold lineTx
  rw [lineStep_diag_ex, if_neg (by norm_num)]
  norm_num [PVec2.new]

/-- C2, amended: For a non-axis-aligned line whose endpoint coordinates
fit in `i16` (≤ 32767), whose `f32` scan cursor stays within `[0, 32767]`
at every step (so no cast saturates or wraps), and which never lands
exactly on the target column before the final row (so the loop is not cut
short), `Line::draw` hands the transparent placement path exactly the
spec's rows: one row per unit step in `y`, row `k` being blank padding to
`⌊min(px_k, px_(k+1))⌋` followed by the symbol across `⌈max⌉ − ⌊min⌋`
columns, the cursor advancing per row by the `f32`-rounded step `dx/dy`
in `f32` arithmetic; in particular `(0,0) → (4,4)` with `'#'` gives four
rows whose `'#'` advances one column per row. -/
theorem line_draw_general_case :
    (∀ (p : Plot) (l : Line),
        l.start.x ≤ 32767 → l.start.y ≤ 32767 →
        l.stop.x ≤ 32767 → l.stop.y ≤ 32767 →
        l.start.x ≠ l.stop.x → l.start.y ≠ l.stop.y →
        (∀ k : Nat, k < lineN l →
          pxSeq (linePx0 l) (lineStep l) k ≠ lineTx l) →
        (∀ k : Nat, k ≤ lineN l →
          0 ≤ pxSeq (linePx0 l) (lineStep l) k ∧
            pxSeq (linePx0 l) (lineStep l) k ≤ 32767) →
        l.draw p = p.put_str_transparent
          (specRows l.symbol (linePx0 l) (lineStep l) (lineN l))
          (PVec2.new l.start.x (min l.start.y l.stop.y))) ∧
    Line.draw ⟨PVec2.new 0 0, PVec2.new 4 4, '#'⟩ (Plot.new 10 10) =
      (Plot.new 10 10).put_str_transparent
        ['#', '\n', ' ', '#', '\n', ' ', ' ', '#', '\n', ' ', ' ', ' ', '#', '\n']
        (PVec2.new 0 0) := by
  have hN : lineN ⟨PVec2.new 0 0, PVec2.new 4 4, '#'⟩ = 4 := by decide
  constructor
  · exact fun p l h1 h2 h3 h4 h5 h6 h7 h8 =>
      line_draw_general_aux p l h1 h2 h3 h4 h5 h6 h7 h8
  · have h := line_draw_general_aux (Plot.new 10 10)
      ⟨PVec2.new 0 0, PVec2.new 4 4, '#'⟩
      (by decide) (by decide) (by decide) (by decide) (by decide) (by decide)
      (by
        intro k hk
        rw [hN] at hk
        rw [linePx0_diag_ex, lineStep_diag_ex, lineTx_diag_ex,
          pxSeq_diag k (by omega)]
        intro heq
        have hc : k = 4 := by exact_mod_cast heq
        omega)
      (by
        intro k hk
        rw [hN] at hk
        rw [linePx0_diag_ex, lineStep_diag_ex, pxSeq_diag k (by omega)]
        constructor
        · positivity
        · exact_mod_cast (show k ≤ 32767 from by omega))
    rw [h, linePx0_diag_ex, lineStep_diag_ex, hN]
    have hrows : specRows '#' 0 1 4 =
        ['#', '\n', ' ', '#', '\n', ' ', ' ', '#', '\n', ' ', ' ', ' ', '#', '\n'] := by
      have e0 := specRow_diag 0 (by norm_num)
      have e1 := specRow_diag 1 (by norm_num)
      have e2 := specRow_diag 2 (by norm_num)
      have e3 := specRow_diag 3 (by norm_num)
      simp [specRows, List.range_succ, e0, e1, e2, e3]
    rw [hrows]
    rfl

/-- Witness for C2 at the diagonal `(0,0) → (4,4)` on a 10×10 plot. -/
theorem line_draw_general_case_witness :
    Line.draw ⟨PVec2.new 0 0, PVec2.new 4 4, '#'⟩ (Plot.new 10 10) =
      (Plot.new 10 10).put_str_transparent
        (specRows '#' (linePx0 ⟨PVec2.new 0 0, PVec2.new 4 4, '#'⟩)
          (lineStep ⟨PVec2.new 0 0, PVec2.new 4 4, '#'⟩)
          (lineN ⟨PVec2.new 0 0, PVec2.new 4 4, '#'⟩))
        (PVec2.new (PVec2.new 0 0).x
          (min (PVec2.new 0 0).y (PVec2.new 4 4).y)) := by
  have hN : lineN ⟨PVec2.new 0 0, PVec2.new 4 4, '#'⟩ = 4 := by decide
  apply line_draw_general_case.1 (Plot.new 10 10)
    ⟨PVec2.new 0 0, PVec2.new 4 4, '#'⟩
    (by decide) (by decide) (by decide) (by decide) (by decide) (by decide)
  · intro k hk
    rw [hN] at hk
    rw [linePx0_diag_ex, lineStep_diag_ex, lineTx_diag_ex,
      pxSeq_diag k (by omega)]
    intro heq
    have hc : k = 4 := by exact_mod_cast heq
    omega
  · intro k hk
    rw [hN] at hk
    rw [linePx0_diag_ex, lineStep_diag_ex, pxSeq_diag k (by omega)]
    constructor
    · positivity
    · exact_mod_cast (show k ≤ 32767 from by omega)

lemma findIdxP_replicate_append {p : Char → Bool} {c d : Char}
    (hc : p c = false) (hd : p d = true) :
    ∀ (n : Nat) (ds : List Char),
      findIdxP p (List.replicate n c ++ d :: ds) = some n := by
  intro n
  induction n with
  | zero =>
    intro ds
    simp only [List.replicate, List.nil_append]
    unfold findIdxP
    rw [hd]
    rfl
  | succ n ih =>
    intro ds
    simp only [List.replicate_succ, List.cons_append]
    unfold findIdxP
    rw [hc]
    simp only [Bool.false_eq_true, if_false]
    rw [ih ds]
    rfl

lemma consume_line_space_run {n : Nat} (hn : n ≠ 0) (d : Char) (ds : List Char)
    (hd : isWs d = false) (hds : ∀ c ∈ d :: ds, isWs c = false) :
    Plot.consume_line (List.replicate n ' ' ++ d :: ds) =
      Cmd.print [] :: Cmd.moveRight (n % U16MOD) ::
        [Cmd.print (d :: ds)] := by
  obtain ⟨m, rfl⟩ : ∃ m, n = m + 1 := ⟨n - 1, by omega⟩
  rw [Plot.consume_line]
  split
  · rename_i h0
    simp at h0
  · have hfind0 : findIdxP isWs (List.replicate (m + 1) ' ' ++ d :: ds) =
        some 0 := by
      simp only [List.replicate_succ, List.cons_append]
      unfold findIdxP
      rw [show isWs ' ' = true from by decide]
      rfl
    have hfindn : findIdxP (fun c => !(isWs c))
        (List.replicate (m + 1) ' ' ++ d :: ds) = some (m + 1) :=
      findIdxP_replicate_append (by decide) (by rw [hd]; rfl) (m + 1) ds
    split
    · rename_i h1
      rw [hfind0] at h1
      exact Option.noConfusion h1
    · rename_i i h1
      rw [hfind0] at h1
      injection h1 with h1'
      subst h1'
      simp only [List.drop_zero, List.take_zero]
      split
      · rename_i h2
        rw [hfindn] at h2
        exact Option.noConfusion h2
      · rename_i j h2
        rw [hfindn] at h2
        injection h2 with h2'
        subst h2'
        rw [List.drop_left' (by rw [List.length_replicate])]
        rw [consume_line_no_ws (by simp) hds]

lemma splitNl_append_nl {xs : List Char} (h : '\n' ∉ xs) :
    ∀ rest : List Char, splitNl (xs ++ '\n' :: rest) = xs :: splitNl rest := by
  induction xs with
  | nil =>
    intro rest
    simp only [List.nil_append]
    rw [splitNl_cons, if_pos rfl]
  | cons c cs ih =>
    intro rest
    have hc : ¬ (c = '\n') := fun hc' => h (by simp [hc'])
    have hcs : '\n' ∉ cs := fun hc' => h (List.mem_cons_of_mem c hc')
    simp only [List.cons_append]
    rw [splitNl_cons, if_neg hc, ih hcs rest]

lemma f32Add_neg_ex : f32Add (0 : ℚ) (-2) = -2 := by
  unfold f32Add
  rw [show (0 : ℚ) + -2 = -2 from by norm_num]
  exact f32Round_neg_two

lemma lineRowsAux_neg_example :
    lineRowsAux 'x' (-2) 2 1 0 =
      (List.replicate 18446744073709551614 ' ' ++ List.replicate 2 'x') ++
        ['\n'] := by
  have hunf : lineRowsAux 'x' (-2) 2 1 0 =
      if (0 : ℚ) = 2 then [] else
        (List.replicate (usizeOf (i16sat ⌊min (f32Add 0 (-2)) 0⌋)) ' ' ++
          List.replicate (usizeOf (wrap16 (i16sat ⌈max (f32Add 0 (-2)) 0⌉ -
            i16sat ⌊min (f32Add 0 (-2)) 0⌋))) 'x') ++
          '\n' :: lineRowsAux 'x' (-2) 2 0 (f32Add 0 (-2)) := rfl
  rw [hunf, if_neg (by norm_num)]
  rw [f32Add_neg_ex]
  rw [show min (-2 : ℚ) 0 = -2 from min_eq_left (by norm_num)]
  rw [show max (-2 : ℚ) 0 = 0 from max_eq_right (by norm_num)]
  rw [show ⌊(-2 : ℚ)⌋ = -2 from by norm_num]
  rw [show ⌈(0 : ℚ)⌉ = 0 from by norm_num]
  rw [show i16sat (-2) = -2 from by decide]
  rw [show i16sat 0 = 0 from by decide]
  rw [show wrap16 (0 - -2) = 2 from by decide]
  rw [show usizeOf (-2) = 18446744073709551614 from by decide]
  rw [show usizeOf 2 = 2 from by decide]
  rfl

lemma specRows_neg_example : specRows 'x' 0 (-2) 1 = ['x', 'x', '\n'] := by
  have hq : pxSeq 0 (-2) (0 + 1) = -2 := by
    show f32Add (pxSeq 0 (-2) 0) (-2) = -2
    rw [pxSeq_zero]
    exact f32Add_neg_ex
  have h0 : specRow 'x' 0 (-2) 0 = ['x', 'x'] := by
    simp only [specRow]
    rw [hq, pxSeq_zero]
    rw [show min (0 : ℚ) (-2) = -2 from min_eq_right (by norm_num)]
    rw [show max (0 : ℚ) (-2) = 0 from max_eq_left (by norm_num)]
    rw [show ⌊(-2 : ℚ)⌋ = -2 from by norm_num]
    rw [show ⌈(0 : ℚ)⌉ = 0 from by norm_num]
    rfl
  simp [specRows, List.range_succ, h0]

/-- Counterexample to C2 as stated: for the line `(2,1) → (0,2)`
(`dx = −2`, `dy = 1`) the scan cursor goes negative; the `i16 → usize`
cast turns the row's "padding" into 2⁶⁴ − 2 spaces, so the command
sequence differs from the spec-rows placement the claim promises. -/
theorem line_draw_general_counterexample :
    Line.draw ⟨PVec2.new 2 1, PVec2.new 0 2, 'x'⟩ (Plot.new 10 10) ≠
      (Plot.new 10 10).put_str_transparent
        (specRows 'x' (linePx0 ⟨PVec2.new 2 1, PVec2.new 0 2, 'x'⟩)
          (lineStep ⟨PVec2.new 2 1, PVec2.new 0 2, 'x'⟩)
          (lineN ⟨PVec2.new 2 1, PVec2.new 0 2, 'x'⟩))
        (PVec2.new (PVec2.new 2 1).x
          (min (PVec2.new 2 1).y (PVec2.new 0 2).y)) := by
  intro h
  have hstepneg : lineStep ⟨⟨2, 1⟩, ⟨0, 2⟩, 'x'⟩ = -2 := by
    show f32Div ((((0 : Nat) : Int) - ((2 : Nat) : Int) : Int) : ℚ)
      ((((2 : Nat) : Int) - ((1 : Nat) : Int) : Int) : ℚ) = -2
    unfold f32Div
    rw [show ((((0 : Nat) : Int) - ((2 : Nat) : Int) : Int) : ℚ) /
        ((((2 : Nat) : Int) - ((1 : Nat) : Int) : Int) : ℚ) = -2 from by norm_num]
    exact f32Round_neg_two
  simp only [PVec2.new] at h
  simp only [Line.draw] at h
  rw [show wrap16 (toI16 0 - toI16 2) = -2 from by decide,
    show wrap16 (toI16 2 - toI16 1) = 1 from by decide] at h
  rw [if_neg (show ¬((1 : Int) = 0) from by decide),
    if_neg (show ¬((-2 : Int) = 0) from by decide)] at h
  rw [show f32Div (((-2 : Int)) : ℚ) (((1 : Int)) : ℚ) = -2 from by
    unfold f32Div
    rw [show (((-2 : Int)) : ℚ) / (((1 : Int)) : ℚ) = -2 from by norm_num]
    exact f32Round_neg_two] at h
  rw [if_pos (show (-2 : ℚ) < 0 from by norm_num),
    if_pos (show (-2 : ℚ) < 0 from by norm_num)] at h
  rw [show ((0 : Nat) : ℚ) = 0 from by norm_num,
    show ((2 : Nat) : ℚ) = 2 from by norm_num] at h
  rw [show max (1 : Nat) 2 - min (1 : Nat) 2 = 1 from by decide] at h
  rw [show min (1 : Nat) 2 = 1 from by decide] at h
  rw [lineRowsAux_neg_example] at h
  rw [show linePx0 ⟨⟨2, 1⟩, ⟨0, 2⟩, 'x'⟩ = 0 from by
    unfold linePx0
    rw [hstepneg, if_pos (by norm_num)]
    norm_num] at h
  rw [hstepneg] at h
  rw [show lineN ⟨⟨2, 1⟩, ⟨0, 2⟩, 'x'⟩ = 1 from by decide] at h
  rw [specRows_neg_example] at h
  simp only [Plot.put_str_transparent, PVec2.new] at h
  rw [show (Plot.new 10 10).clamp_to_plot ⟨2, 1⟩ = ⟨2, 1⟩ from by decide] at h
  rw [splitNl_append_nl (by
    intro hm
    rcases List.mem_append.mp hm with h' | h'
    · exact absurd (List.eq_of_mem_replicate h') (by decide)
    · exact absurd (List.eq_of_mem_replicate h') (by decide))] at h
  rw [show splitNl ['x', 'x', '\n'] = [['x', 'x'], []] from rfl] at h
  simp only [List.flatMap_cons, List.flatMap_nil, List.append_nil] at h
  rw [clip_of_short (by
    rw [List.length_append, List.length_replicate, List.length_replicate]
    decide)] at h
  rw [clip_of_short (l := ['x', 'x']) (by decide)] at h
  rw [clip_nil] at h
  rw [show List.replicate 2 'x' = 'x' :: ['x'] from rfl] at h
  rw [consume_line_space_run (by decide) 'x' ['x'] (by decide) (by decide)] at h
  rw [consume_line_no_ws (by decide) (by decide)] at h
  rw [consume_line_nil] at h
  simp at h
